import Mathlib

/-!
Verification of the part-identity resolution and price-aggregation engine of the
AI-parts-analyse repository (src/app.py), against its design specification.

The Python functions are shallowly embedded as Lean definitions:

* SQLite tables become lists of structure values, in rowid (insertion) order.
* Python floats become rationals (ℚ); Python `round(x, n)` becomes rounding to
  the nearest multiple of 10^(-n) (Python's tie-to-even behaviour is never
  exercised by the facts proved here).
* Python dicts with string keys become association lists with the dict's
  last-assignment-wins update semantics (`dictInsert`) and `dict.get` lookup
  (`dictGet`).
* `None` becomes `Option.none`; Python truthiness of optional numbers and
  strings (`None`, `0` and `""` are falsy) is made explicit (`truthyQ`,
  `truthyS`).
* SQL `ORDER BY ... DESC` on a timestamp column becomes insertion sort by a
  natural-number timestamp; `ROW_NUMBER() OVER (PARTITION ... ORDER ...)`
  filters become fold-based selections whose tie behaviour (first row in
  insertion order) models SQLite's deterministic scan order.
-/

/-! ## Currency rates (src/app.py: get_currency_rates, lines 1035-1043) -/

/-- One row of the currency_rates table. -/
structure RateRow where
  currency_code : String
  rate_to_rub : ℚ
  created_at : ℕ
deriving Repr, DecidableEq

/-- Python dict assignment d[k] = v on an association list: an existing key is
overwritten in place, a new key is appended. -/
def dictInsert (d : List (String × ℚ)) (k : String) (v : ℚ) : List (String × ℚ) :=
  if d.any (fun p => p.1 == k) then
    d.map (fun p => if p.1 == k then (p.1, v) else p)
  else
    d ++ [(k, v)]

/-- Python dict.get(k, dflt) on an association list. -/
def dictGet (d : List (String × ℚ)) (k : String) (dflt : ℚ) : ℚ :=
  match d.find? (fun p => p.1 == k) with
  | some p => p.2
  | none => dflt

/-- Lookup without a default (used only to state claims). -/
def dictLookup (d : List (String × ℚ)) (k : String) : Option ℚ :=
  (d.find? (fun p => p.1 == k)).map (fun p => p.2)

/-- Insert one row into a list sorted by created_at descending. -/
def insertRowDesc (r : RateRow) : List RateRow → List RateRow
  | [] => [r]
  | x :: xs =>
    if r.created_at ≥ x.created_at then r :: x :: xs else x :: insertRowDesc r xs

/-- ORDER BY created_at DESC. -/
def sortByCreatedDesc (rows : List RateRow) : List RateRow :=
  rows.foldr insertRowDesc []

/-- get_currency_rates (src/app.py lines 1035-1043): fetches all rate rows
ordered by created_at descending and builds a Python dict from them by a
comprehension, so for a repeated currency code the row iterated last — the
oldest one — wins. -/
def get_currency_rates (rows : List RateRow) : List (String × ℚ) :=
  (sortByCreatedDesc rows).foldl (fun d r => dictInsert d r.currency_code r.rate_to_rub) []

/-- Modelled from the spec: "read returns most-recent rate per currency" — the
rate of the row with the greatest created_at among rows for that currency. -/
def mostRecentRate (rows : List RateRow) (c : String) : Option ℚ :=
  ((rows.filter (fun r => r.currency_code == c)).foldl
    (fun acc r =>
      match acc with
      | none => some r
      | some a => if r.created_at > a.created_at then some r else acc)
    none).map (fun r => r.rate_to_rub)

/-! ## Delivery cost and currency conversion
(src/app.py: calculate_delivery_cost lines 1486-1492, convert_to_rub lines 1494-1503) -/

/-- One rule of the delivery_costs table (joined with its region name). -/
structure DeliveryRule where
  cost_per_kg : ℚ
  min_cost : ℚ
deriving Repr, DecidableEq

/-- calculate_delivery_cost (src/app.py lines 1486-1492): max(min_cost,
weight * cost_per_kg); 0 when the region has no rule (delivery_data is None). -/
def calculate_delivery_cost (weight : ℚ) (delivery_data : Option DeliveryRule) : ℚ :=
  match delivery_data with
  | none => 0
  | some d => max d.min_cost (weight * d.cost_per_kg)

/-- convert_to_rub (src/app.py lines 1494-1503): RUB passes through unchanged;
any other currency is multiplied by currency_rates.get(currency, 1); then
(price_rub + delivery_cost) / coefficient. -/
def convert_to_rub (price : ℚ) (currency : String) (currency_rates : List (String × ℚ))
    (delivery_cost : ℚ) (coefficient : ℚ) : ℚ :=
  let price_rub := if currency = "RUB" then price else price * dictGet currency_rates currency 1
  (price_rub + delivery_cost) / coefficient

/-! ## Missing-rate check (src/app.py: check_currency_rates, lines 3226-3243) -/

/-- check_currency_rates (src/app.py lines 3226-3243): over the distinct
non-RUB supplier currencies, collect those with no recorded rate row. -/
def check_currency_rates (supplier_currencies : List String) (rows : List RateRow) :
    List String :=
  ((supplier_currencies.filter (fun c => c != "RUB")).dedup).filter
    (fun c => rows.all (fun r => r.currency_code != c))

/-! ## Helper lemmas about the dict and sort embeddings -/

lemma find?_dictInsert_none (acc : List (String × ℚ)) (k c : String) (v : ℚ)
    (hk : k ≠ c) (h : acc.find? (fun p => p.1 == c) = none) :
    (dictInsert acc k v).find? (fun p => p.1 == c) = none := by
  unfold dictInsert
  split
  · rw [List.find?_eq_none] at h ⊢
    intro p hp
    rcases List.mem_map.mp hp with ⟨q, hq, hfq⟩
    by_cases hqk : (q.1 == k) = true
    · rw [if_pos hqk] at hfq
      subst hfq
      have hq1 : ¬(q.1 == c) = true := h q hq
      simpa using hq1
    · rw [if_neg hqk] at hfq
      subst hfq
      exact h q hq
  · rw [List.find?_append, h]
    have hkc : (k == c) = false := by simpa using hk
    simp [List.find?, hkc]

lemma find?_foldl_dictInsert_none (l : List RateRow) :
    ∀ (acc : List (String × ℚ)) (c : String),
    (∀ r ∈ l, r.currency_code ≠ c) →
    acc.find? (fun p => p.1 == c) = none →
    ((l.foldl (fun d r => dictInsert d r.currency_code r.rate_to_rub) acc).find?
      (fun p => p.1 == c) = none) := by
  induction l with
  | nil => intro acc c _ hacc; simpa using hacc
  | cons r rs ih =>
    intro acc c hl hacc
    simp only [List.foldl_cons]
    exact ih _ c (fun x hx => hl x (List.mem_cons_of_mem _ hx))
      (find?_dictInsert_none acc r.currency_code c r.rate_to_rub
        (hl r (List.mem_cons_self _ _)) hacc)

lemma mem_insertRowDesc {x y : RateRow} {m : List RateRow}
    (hx : x ∈ insertRowDesc y m) : x = y ∨ x ∈ m := by
  induction m with
  | nil => simp only [insertRowDesc, List.mem_singleton] at hx; exact Or.inl hx
  | cons z zs ih =>
    unfold insertRowDesc at hx
    split at hx
    · rcases List.mem_cons.mp hx with h | h
      · exact Or.inl h
      · exact Or.inr h
    · rcases List.mem_cons.mp hx with h | h
      · exact Or.inr (by simp [h])
      · rcases ih h with h1 | h1
        · exact Or.inl h1
        · exact Or.inr (List.mem_cons_of_mem _ h1)

lemma mem_sortByCreatedDesc {l : List RateRow} {x : RateRow}
    (hx : x ∈ sortByCreatedDesc l) : x ∈ l := by
  induction l with
  | nil => simpa [sortByCreatedDesc] using hx
  | cons y ys ih =>
    unfold sortByCreatedDesc at hx
    simp only [List.foldr_cons] at hx
    rcases mem_insertRowDesc hx with h | h
    · simp [h]
    · exact List.mem_cons_of_mem _ (ih h)

lemma dictGet_get_currency_rates_of_missing (rows : List RateRow) (c : String) (d : ℚ)
    (hmiss : ∀ r ∈ rows, r.currency_code ≠ c) :
    dictGet (get_currency_rates rows) c d = d := by
  unfold get_currency_rates dictGet
  rw [find?_foldl_dictInsert_none (sortByCreatedDesc rows) [] c
    (fun r hr => hmiss r (mem_sortByCreatedDesc hr)) rfl]

/-! ## Theorems for claims C1, C3, C5 -/

/-- C1: the claim says the current-rate lookup used by order pricing returns the
most recently recorded rate per currency.  The code violates it: with two USD
rates, 95 recorded at time 1 and 100 recorded at time 2, `get_currency_rates`
(the lookup order pricing feeds into `convert_to_rub`) yields 95 — the oldest —
because the dict comprehension iterates the DESC-ordered rows and the last
(oldest) assignment wins, while the most recently recorded rate is 100.  The
function's own docstring and its ORDER BY created_at DESC, and the sibling
inline lookup in price_list_analysis (ORDER BY created_at DESC LIMIT 1), show
the most-recent rate was the intent. -/
theorem C1_current_rate_lookup_returns_oldest :
    dictGet (get_currency_rates
      [⟨"USD", 95, 1⟩, ⟨"USD", 100, 2⟩]) "USD" 1 = 95
    ∧ mostRecentRate [⟨"USD", 95, 1⟩, ⟨"USD", 100, 2⟩] "USD" = some 100
    ∧ (95 : ℚ) ≠ 100 := by
  refine ⟨rfl, rfl, by norm_num⟩

/-- C3: landed cost equals (price * rate(currency) + deliveryCost) /
marginCoefficient, where the base currency RUB has an implicit rate of 1,
deliveryCost is max(rule.minCost, weight * rule.costPerKg) when a rule exists
and 0 otherwise. -/
theorem C3_landed_cost_formula (price weight coefficient r : ℚ) (currency : String)
    (rates : List (String × ℚ)) (rule : Option DeliveryRule)
    (h : (currency = "RUB" ∧ r = 1) ∨ (currency ≠ "RUB" ∧ dictLookup rates currency = some r)) :
    convert_to_rub price currency rates (calculate_delivery_cost weight rule) coefficient
      = (price * r +
          (match rule with
           | some d => max d.min_cost (weight * d.cost_per_kg)
           | none => 0)) / coefficient := by
  rcases h with ⟨hc, hr⟩ | ⟨hc, hr⟩
  · subst hc; subst hr
    cases rule <;> simp [convert_to_rub, calculate_delivery_cost]
  · have hg : dictGet rates currency 1 = r := by
      unfold dictGet
      unfold dictLookup at hr
      cases hfind : rates.find? (fun p => p.1 == currency) with
      | none => simp [hfind] at hr
      | some p => simp [hfind] at hr ⊢; exact hr
    cases rule <;> simp [convert_to_rub, calculate_delivery_cost, hc, hg]

/-- Witness for C3 at the spec's own scenario: 9 USD, rate 95, weight 2 kg,
rule {per kg 150, min 500}, coefficient 0.835. -/
theorem C3_landed_cost_formula_witness :
    convert_to_rub 9 "USD" [("USD", 95)]
        (calculate_delivery_cost 2 (some ⟨150, 500⟩)) (835/1000)
      = (9 * 95 + max (500 : ℚ) (2 * 150)) / (835/1000) :=
  C3_landed_cost_formula 9 2 (835/1000) 95 "USD" [("USD", 95)] (some ⟨150, 500⟩)
    (Or.inr ⟨by decide, rfl⟩)

/-- C5 counterexample: the claim says a landed-cost conversion that needs a
missing rate yields a null result.  The code instead falls back to rate 1 and
returns a number: converting 100 in currency "XYZ" with an empty rate store,
zero delivery cost and coefficient 1 returns the numeric value 100 (while
check_currency_rates does report "XYZ" as missing). -/
theorem C5_missing_rate_conversion_is_numeric :
    convert_to_rub 100 "XYZ" [] 0 1 = 100
    ∧ check_currency_rates ["XYZ"] [] = ["XYZ"] := by
  constructor
  · simp [convert_to_rub, dictGet]
  · rfl

/-- C5 as amended: a non-base currency with no recorded rate is reported by
check_currency_rates (the caller surfaces the list as a warning), but
convert_to_rub does not fail and does not return null for it — it silently
falls back to rate 1, returning (price * 1 + deliveryCost) / coefficient. -/
theorem C5_missing_rate_warned_but_conversion_falls_back_to_one
    (price delivery coefficient : ℚ) (c : String) (rows : List RateRow)
    (supplier_currencies : List String)
    (hc : c ≠ "RUB") (hmem : c ∈ supplier_currencies)
    (hmiss : ∀ r ∈ rows, r.currency_code ≠ c) :
    c ∈ check_currency_rates supplier_currencies rows
    ∧ convert_to_rub price c (get_currency_rates rows) delivery coefficient
        = (price * 1 + delivery) / coefficient := by
  constructor
  · unfold check_currency_rates
    rw [List.mem_filter]
    constructor
    · rw [List.mem_dedup, List.mem_filter]
      exact ⟨hmem, by simpa using hc⟩
    · rw [List.all_eq_true]
      intro r hr
      simpa using hmiss r hr
  · have hget : dictGet (get_currency_rates rows) c 1 = 1 :=
      dictGet_get_currency_rates_of_missing rows c 1 hmiss
    show ((if c = "RUB" then price else price * dictGet (get_currency_rates rows) c 1)
        + delivery) / coefficient = (price * 1 + delivery) / coefficient
    rw [if_neg hc, hget]

/-- Witness for C5 as amended, at the concrete missing currency "XYZ". -/
theorem C5_missing_rate_warned_witness :
    "XYZ" ∈ check_currency_rates ["XYZ"] []
    ∧ convert_to_rub 100 "XYZ" (get_currency_rates []) 7 2 = (100 * 1 + 7) / 2 :=
  C5_missing_rate_warned_but_conversion_falls_back_to_one 100 7 2 "XYZ" [] ["XYZ"]
    (by decide) (by decide) (by intro r hr; cases hr)

/-! ## Order pricing: per-region profit marking
(src/app.py: find_best_region lines 1505-1527) -/

/-- Python truthiness of an optional number: None and 0 are falsy. -/
def truthyQ : Option ℚ → Bool
  | none => false
  | some q => q != 0

/-- Python round(x, n): round to the nearest multiple of 10^(-n).  (Python
rounds float ties to even; no fact proved here sits on a tie.) -/
def roundTo (n : ℕ) (q : ℚ) : ℚ := (round (q * 10 ^ n) : ℤ) / 10 ^ n

/-- Per-region result dict built by calculate_single_region_price
(src/app.py lines 1076-1113) and then mutated in place by find_best_region. -/
structure RegionData where
  price_original : Option ℚ
  currency : Option String
  price_rub : Option ℚ
  supplier : Option String
  profit_percent : Option ℚ
  is_best_price : Bool
  is_high_profit : Bool
deriving Repr, DecidableEq

/-- Python min(..., key=price_rub) over the valid entries: the first entry with
the strictly smallest price wins, as in CPython's min. -/
def minByPrice (v : String × RegionData) (vs : List (String × RegionData)) :
    String × RegionData :=
  vs.foldl (fun acc nd => if nd.2.price_rub.getD 0 < acc.2.price_rub.getD 0 then nd else acc) v

/-- Loop body of find_best_region (src/app.py lines 1521-1526): a region whose
price_rub is truthy gets profit percent (rounded to 1 decimal), the best-price
mark and the >15 percent high-profit flag; any other region is left untouched. -/
def applyProfit (s : ℚ) (best_region_name : String) (nd : String × RegionData) :
    String × RegionData :=
  if truthyQ nd.2.price_rub then
    let p := nd.2.price_rub.getD 0
    let profit := (s / p - 1) * 100
    (nd.1, { nd.2 with
      profit_percent := some (roundTo 1 profit),
      is_best_price := nd.1 == best_region_name,
      is_high_profit := decide (profit > 15) })
  else nd

/-- find_best_region (src/app.py lines 1505-1527): returns immediately when the
sale price is falsy (None or 0) or when no region has a price; otherwise finds
the name of the minimum-price region among entries whose price_rub is not None
and applies the profit loop to every entry. -/
def find_best_region (regions_data : List (String × RegionData)) (sale_price : Option ℚ) :
    List (String × RegionData) :=
  if truthyQ sale_price then
    match regions_data.filter (fun nd => nd.2.price_rub.isSome) with
    | [] => regions_data
    | v :: vs => regions_data.map (applyProfit (sale_price.getD 0) (minByPrice v vs).1)
  else regions_data

/-! ## Order pricing: single-supplier calculation
(src/app.py: calculate_supplier_price lines 324-381) -/

/-- A price observation joined with its price list, supplier, region and part,
as the SQL in calculate_supplier_price and get_best_region_price sees it. -/
structure PriceRow where
  price : ℚ
  currency : String
  supplier_id : ℕ
  supplier_name : String
  region : String
  brand : String
  article : String
  upload_date : ℕ
  is_active : Bool
deriving Repr, DecidableEq

/-- ORDER BY upload_date DESC LIMIT 1: the row with the greatest upload_date,
the first such row in table order on ties. -/
def argmaxUploadDate (rows : List PriceRow) : Option PriceRow :=
  rows.foldl (fun acc r =>
    match acc with
    | none => some r
    | some a => if r.upload_date > a.upload_date then some r else acc) none

/-- The price query of calculate_supplier_price (src/app.py lines 331-343):
latest active price for this exact brand name, article and supplier id. -/
def supplierLatestPrice (rows : List PriceRow) (brand article : String) (sid : ℕ) :
    Option PriceRow :=
  argmaxUploadDate (rows.filter (fun r =>
    r.brand == brand && r.article == article && r.supplier_id == sid && r.is_active))

/-- The fields of an order line that calculate_supplier_price reads. -/
structure OrderItem where
  brand : String
  article : String
  catalog_weight : Option ℚ
  sale_price : Option ℚ
  custom_sale_price : Option ℚ
deriving Repr, DecidableEq

/-- Supplier row joined with its region name. -/
structure SupplierInfo where
  id : ℕ
  name : String
  currency : String
  region_name : String
deriving Repr, DecidableEq

/-- delivery_costs.get(region_name): the region's delivery rule, if any. -/
def ruleGet (d : List (String × DeliveryRule)) (k : String) : Option DeliveryRule :=
  (d.find? (fun p => p.1 == k)).map (fun p => p.2)

/-- The dict returned by calculate_supplier_price. -/
structure SupplierPriceResult where
  price_original : Option ℚ
  currency : String
  price_rub : Option ℚ
  supplier : String
  profit_percent : Option ℚ
  upload_date : Option ℕ
  has_data : Bool
deriving Repr, DecidableEq

/-- calculate_supplier_price (src/app.py lines 324-381).  Note the Python
truthiness chain: `sale_price or custom_sale_price`, `if sale_price and
price_rub`, and `round(profit_percent, 1) if profit_percent else None` — a
computed profit of exactly 0 is reported as None. -/
def calculate_supplier_price (item : OrderItem) (sup : SupplierInfo)
    (currency_rates : List (String × ℚ)) (delivery_costs : List (String × DeliveryRule))
    (coefficient : ℚ) (rows : List PriceRow) : SupplierPriceResult :=
  match supplierLatestPrice rows item.brand item.article sup.id with
  | none =>
    { price_original := none, currency := sup.currency, price_rub := none,
      supplier := sup.name, profit_percent := none, upload_date := none, has_data := false }
  | some price_data =>
    let weight := if truthyQ item.catalog_weight then item.catalog_weight.getD 0 else 0
    let delivery_cost := calculate_delivery_cost weight (ruleGet delivery_costs sup.region_name)
    let price_rub := convert_to_rub price_data.price sup.currency currency_rates
      delivery_cost coefficient
    let sale_price := if truthyQ item.sale_price then item.sale_price else item.custom_sale_price
    let profit_percent : Option ℚ :=
      if truthyQ sale_price && (price_rub != 0) then
        some ((sale_price.getD 0 / price_rub - 1) * 100)
      else none
    { price_original := some price_data.price,
      currency := sup.currency,
      price_rub := some price_rub,
      supplier := sup.name,
      profit_percent :=
        match profit_percent with
        | some pr => if pr != 0 then some (roundTo 1 pr) else none
        | none => none,
      upload_date := some price_data.upload_date,
      has_data := true }

/-! ## Theorems for claim C10 -/

/-- C10: at the pricing interface a zero value is treated as absent: a computed
per-supplier profit percentage of exactly 0 is reported as None rather than 0,
and a region whose converted price is exactly 0 is never given a best-price
mark or a profit figure by find_best_region (its entry passes through
unchanged). -/
theorem C10_zero_treated_as_absent :
    (∀ (item : OrderItem) (sup : SupplierInfo) (rates : List (String × ℚ))
       (dcosts : List (String × DeliveryRule)) (k : ℚ) (rows : List PriceRow) (pd : PriceRow),
       supplierLatestPrice rows item.brand item.article sup.id = some pd →
       (if truthyQ item.sale_price then item.sale_price else item.custom_sale_price)
         = some (convert_to_rub pd.price sup.currency rates
             (calculate_delivery_cost
               (if truthyQ item.catalog_weight then item.catalog_weight.getD 0 else 0)
               (ruleGet dcosts sup.region_name)) k) →
       (calculate_supplier_price item sup rates dcosts k rows).profit_percent = none)
    ∧ (∀ (regions_data : List (String × RegionData)) (sale : Option ℚ)
         (n : String) (d : RegionData),
       (n, d) ∈ regions_data → d.price_rub = some 0 →
       (n, d) ∈ find_best_region regions_data sale) := by
  constructor
  · intro item sup rates dcosts k rows pd hlatest hsale
    unfold calculate_supplier_price
    rw [hlatest]
    simp only [hsale]
    set P := convert_to_rub pd.price sup.currency rates
      (calculate_delivery_cost
        (if truthyQ item.catalog_weight then item.catalog_weight.getD 0 else 0)
        (ruleGet dcosts sup.region_name)) k with hP
    by_cases hp : P = 0
    · simp [truthyQ, hp]
    · simp [truthyQ, hp, div_self hp]
  · intro regions_data sale n d hmem hd0
    have key : ∀ (s0 : ℚ) (b : String), applyProfit s0 b (n, d) = (n, d) := by
      intro s0 b
      unfold applyProfit
      rw [hd0]
      simp [truthyQ]
    unfold find_best_region
    split
    · split
      · exact hmem
      · exact List.mem_map.mpr ⟨(n, d), hmem, key _ _⟩
    · exact hmem

/-- Witness for C10: a supplier price of 100 RUB with sale price also 100
(profit exactly 0) reports profit_percent = None; a region priced at exactly 0
keeps its untouched entry. -/
theorem C10_zero_treated_as_absent_witness :
    (calculate_supplier_price
        ⟨"BOSCH", "A123", some 1, some ((100 + 0) / 1), none⟩
        ⟨7, "S", "RUB", "Китай"⟩ [] [] 1
        [⟨100, "RUB", 7, "S", "Китай", "BOSCH", "A123", 3, true⟩]).profit_percent = none
    ∧ ("r1", (⟨none, none, some 0, none, none, false, false⟩ : RegionData))
        ∈ find_best_region [("r1", ⟨none, none, some 0, none, none, false, false⟩)] (some 5) := by
  constructor
  · exact C10_zero_treated_as_absent.1
      ⟨"BOSCH", "A123", some 1, some ((100 + 0) / 1), none⟩
      ⟨7, "S", "RUB", "Китай"⟩ [] [] 1
      [⟨100, "RUB", 7, "S", "Китай", "BOSCH", "A123", 3, true⟩]
      ⟨100, "RUB", 7, "S", "Китай", "BOSCH", "A123", 3, true⟩
      (by rfl)
      (by norm_num [truthyQ, convert_to_rub, calculate_delivery_cost, ruleGet, dictGet])
  · exact C10_zero_treated_as_absent.2
      [("r1", ⟨none, none, some 0, none, none, false, false⟩)] (some 5) "r1"
      ⟨none, none, some 0, none, none, false, false⟩ (by simp) rfl

/-! ## Theorems for claim C8 -/

/-- C8 counterexample: the claim says percentages are rounded to 2 decimal
places at the presentation boundary.  find_best_region stores
round(profit, 1): with landed cost 3 and target sale price 3.1 the stored
profit percent is 3.3, while two-decimal rounding of the exact profit
(10/3 percent) gives 3.33. -/
theorem C8_profit_rounded_to_one_decimal :
    (find_best_region
        [("china", ⟨some 3, some "RUB", some 3, some "A", none, false, false⟩)]
        (some (31/10))).map (fun nd => nd.2.profit_percent)
      = [some ((33 : ℚ)/10)]
    ∧ roundTo 2 ((31/10 / 3 - 1) * 100) = (333 : ℚ)/100
    ∧ ((33 : ℚ)/10) ≠ (333 : ℚ)/100 := by
  refine ⟨?_, ?_, by norm_num⟩
  · norm_num [find_best_region, truthyQ, minByPrice, applyProfit, roundTo, round_eq]
  · norm_num [roundTo, round_eq]

lemma minByPrice_mem : ∀ (vs : List (String × RegionData)) (v : String × RegionData),
    minByPrice v vs ∈ v :: vs := by
  intro vs
  induction vs with
  | nil => intro v; simp [minByPrice]
  | cons w ws ih =>
    intro v
    unfold minByPrice
    simp only [List.foldl_cons]
    by_cases h : w.2.price_rub.getD 0 < v.2.price_rub.getD 0
    · rw [if_pos h]
      rcases List.mem_cons.mp (ih w) with h1 | h1
      · rw [minByPrice] at h1
        rw [h1]
        exact List.mem_cons_of_mem _ (List.mem_cons_self _ _)
      · exact List.mem_cons_of_mem _ (List.mem_cons_of_mem _ (by
          rw [minByPrice] at h1; exact h1))
    · rw [if_neg h]
      rcases List.mem_cons.mp (ih v) with h1 | h1
      · rw [minByPrice] at h1
        rw [h1]
        exact List.mem_cons_self _ _
      · exact List.mem_cons_of_mem _ (List.mem_cons_of_mem _ (by
          rw [minByPrice] at h1; exact h1))

lemma minByPrice_le : ∀ (vs : List (String × RegionData)) (v x : String × RegionData),
    x ∈ v :: vs →
    (minByPrice v vs).2.price_rub.getD 0 ≤ x.2.price_rub.getD 0 := by
  intro vs
  induction vs with
  | nil =>
    intro v x hx
    rw [List.mem_singleton] at hx
    subst hx
    exact le_refl _
  | cons w ws ih =>
    intro v x hx
    unfold minByPrice
    simp only [List.foldl_cons]
    have hstep : ∀ u : String × RegionData,
        (minByPrice u ws).2.price_rub.getD 0
          = (ws.foldl (fun acc nd =>
              if nd.2.price_rub.getD 0 < acc.2.price_rub.getD 0 then nd else acc) u).2.price_rub.getD 0 := by
      intro u; rw [minByPrice]
    by_cases h : w.2.price_rub.getD 0 < v.2.price_rub.getD 0
    · rw [if_pos h, ← hstep]
      rcases List.mem_cons.mp hx with h1 | hx1
      · rw [h1]
        exact le_trans (ih w w (List.mem_cons_self _ _)) (le_of_lt h)
      · exact ih w x hx1
    · rw [if_neg h, ← hstep]
      rcases List.mem_cons.mp hx with h1 | hx1
      · rw [h1]
        exact ih v v (List.mem_cons_self _ _)
      · rcases List.mem_cons.mp hx1 with h1 | hx2
        · rw [h1]
          exact le_trans (ih v v (List.mem_cons_self _ _)) (le_of_not_lt h)
        · exact ih v x (List.mem_cons_of_mem _ hx2)

lemma eq_snd_of_nodup_fst : ∀ (l : List (String × RegionData)),
    (l.map Prod.fst).Nodup →
    ∀ (a : String) (b1 b2 : RegionData), (a, b1) ∈ l → (a, b2) ∈ l → b1 = b2 := by
  intro l
  induction l with
  | nil => intro _ a b1 b2 h1; cases h1
  | cons x xs ih =>
    intro h a b1 b2 h1 h2
    simp only [List.map_cons, List.nodup_cons] at h
    rcases List.mem_cons.mp h1 with he1 | h1x
    · rcases List.mem_cons.mp h2 with he2 | h2x
      · exact congrArg Prod.snd (he1.trans he2.symm)
      · exfalso
        apply h.1
        have hfst : x.1 = a := congrArg Prod.fst he1.symm
        rw [hfst]
        exact List.mem_map_of_mem Prod.fst h2x
    · rcases List.mem_cons.mp h2 with he2 | h2x
      · exfalso
        apply h.1
        have hfst : x.1 = a := congrArg Prod.fst he2.symm
        rw [hfst]
        exact List.mem_map_of_mem Prod.fst h1x
      · exact ih h.2 a b1 b2 h1x h2x

/-- C8 as amended: when the target sale price is absent or zero, the input
passes through with every field — including the best-price mark — left unset
(the claim had marking happen unconditionally); otherwise, over freshly
computed per-region data (distinct region names, no pre-set best marks), any
entry marked best has a nonzero converted price that is minimal among all
regions with a converted price, and every region with a nonzero converted
price receives profit percent (salePrice/landedCost - 1)*100 stored rounded to
1 (not 2) decimal place, with the high-profit flag set exactly when the
unrounded value exceeds 15. -/
theorem C8_find_best_region_amended (regions_data : List (String × RegionData)) (s : ℚ) :
    (find_best_region regions_data none = regions_data)
    ∧ (find_best_region regions_data (some 0) = regions_data)
    ∧ ((regions_data.map Prod.fst).Nodup →
       (∀ nd ∈ regions_data, nd.2.is_best_price = false) →
       s ≠ 0 →
       (∀ n d, (n, d) ∈ find_best_region regions_data (some s) → d.is_best_price = true →
         ∃ p, d.price_rub = some p ∧ p ≠ 0 ∧
           ∀ n' d' q, (n', d') ∈ regions_data → d'.price_rub = some q → p ≤ q)
       ∧ (∀ n d p, (n, d) ∈ regions_data → d.price_rub = some p → p ≠ 0 →
           ∃ b : Bool, (n, { d with
              profit_percent := some (roundTo 1 ((s / p - 1) * 100)),
              is_best_price := b,
              is_high_profit := decide ((s / p - 1) * 100 > 15) })
             ∈ find_best_region regions_data (some s))) := by
  refine ⟨by simp [find_best_region, truthyQ], by simp [find_best_region, truthyQ], ?_⟩
  intro hnd hfresh hs
  have htr : truthyQ (some s) = true := by simp [truthyQ, hs]
  constructor
  · intro n d hout hbest
    unfold find_best_region at hout
    rw [if_pos htr] at hout
    cases hv : regions_data.filter (fun nd => nd.2.price_rub.isSome) with
    | nil =>
      rw [hv] at hout
      have := hfresh (n, d) hout
      rw [this] at hbest
      cases hbest
    | cons v vs =>
      rw [hv] at hout
      rcases List.mem_map.mp hout with ⟨⟨n0, d0⟩, h0, hf⟩
      by_cases ht : truthyQ d0.price_rub = true
      · unfold applyProfit at hf
        rw [if_pos ht] at hf
        rw [Prod.mk.injEq] at hf
        obtain ⟨hn, hd⟩ := hf
        cases hd0 : d0.price_rub with
        | none => rw [hd0] at ht; simp [truthyQ] at ht
        | some p0 =>
          have hp0 : p0 ≠ 0 := by
            rw [hd0] at ht
            simpa [truthyQ] using ht
          refine ⟨p0, ?_, hp0, ?_⟩
          · rw [← hd]
            exact hd0
          · intro n' d' q hmem' hq'
            rw [← hd] at hbest
            have hbname : (n0 == (minByPrice v vs).1) = true := hbest
            have hname : n0 = (minByPrice v vs).1 := by simpa using hbname
            have hbmemf : minByPrice v vs
                ∈ regions_data.filter (fun nd => nd.2.price_rub.isSome) := by
              rw [hv]
              exact minByPrice_mem vs v
            have hbmem : minByPrice v vs ∈ regions_data := (List.mem_filter.mp hbmemf).1
            have heq : minByPrice v vs = (n0, (minByPrice v vs).2) := by rw [hname]
            have hb2 : (minByPrice v vs).2 = d0 :=
              eq_snd_of_nodup_fst regions_data hnd n0 ((minByPrice v vs).2) d0
                (heq ▸ hbmem) h0
            have hmemf' : (n', d') ∈ regions_data.filter (fun nd => nd.2.price_rub.isSome) :=
              List.mem_filter.mpr ⟨hmem', by simp [hq']⟩
            rw [hv] at hmemf'
            have hle := minByPrice_le vs v (n', d') hmemf'
            rw [hb2, hd0, hq'] at hle
            simpa using hle
      · unfold applyProfit at hf
        rw [if_neg ht] at hf
        rw [Prod.mk.injEq] at hf
        obtain ⟨hn, hd⟩ := hf
        rw [← hd] at hbest
        rw [hfresh (n0, d0) h0] at hbest
        cases hbest
  · intro n d p hmem hp hp0
    have hmemf : (n, d) ∈ regions_data.filter (fun nd => nd.2.price_rub.isSome) :=
      List.mem_filter.mpr ⟨hmem, by simp [hp]⟩
    cases hv : regions_data.filter (fun nd => nd.2.price_rub.isSome) with
    | nil =>
      rw [hv] at hmemf
      cases hmemf
    | cons v vs =>
      refine ⟨(n == (minByPrice v vs).1), ?_⟩
      unfold find_best_region
      rw [if_pos htr, hv]
      refine List.mem_map.mpr ⟨(n, d), hmem, ?_⟩
      unfold applyProfit
      have htd : truthyQ (n, d).2.price_rub = true := by simp [truthyQ, hp, hp0]
      rw [if_pos htd]
      simp [hp]

/-- Witness for C8 as amended: one region priced 4 with target sale price 2. -/
theorem C8_find_best_region_amended_witness :
    find_best_region [("a", ⟨some 4, some "RUB", some 4, some "S", none, false, false⟩)] none
      = [("a", ⟨some 4, some "RUB", some 4, some "S", none, false, false⟩)]
    ∧ ∃ b : Bool,
      ("a", ({ price_original := some 4, currency := some "RUB", price_rub := some 4,
               supplier := some "S",
               profit_percent := some (roundTo 1 ((2 / 4 - 1) * 100)),
               is_best_price := b,
               is_high_profit := decide (((2 : ℚ) / 4 - 1) * 100 > 15) } : RegionData))
        ∈ find_best_region
            [("a", ⟨some 4, some "RUB", some 4, some "S", none, false, false⟩)] (some 2) := by
  constructor
  · exact (C8_find_best_region_amended
      [("a", ⟨some 4, some "RUB", some 4, some "S", none, false, false⟩)] 2).1
  · exact ((C8_find_best_region_amended
      [("a", ⟨some 4, some "RUB", some 4, some "S", none, false, false⟩)] 2).2.2
      (by simp) (by intro nd h; rw [List.mem_singleton] at h; rw [h]) (by norm_num)).2
      "a" ⟨some 4, some "RUB", some 4, some "S", none, false, false⟩ 4
      (by simp) rfl (by norm_num)

/-! ## Best price in a region (src/app.py: get_best_region_price, lines 1115-1148) -/

/-- ROW_NUMBER() OVER (PARTITION BY s.id ORDER BY pl.upload_date DESC) = 1 for
one supplier group: the row with the greatest upload_date, first row in table
order winning ties. -/
def bestOfSupplier (r : PriceRow) (others : List PriceRow) : PriceRow :=
  others.foldl (fun a x => if x.upload_date > a.upload_date then x else a) r

/-- The LatestSupplierPrices CTE: one row per supplier (suppliers in order of
first appearance), namely that supplier's most recent row. -/
def latestPerSupplier : List PriceRow → List PriceRow
  | [] => []
  | r :: rs =>
    bestOfSupplier r (rs.filter (fun x => x.supplier_id == r.supplier_id))
      :: latestPerSupplier (rs.filter (fun x => x.supplier_id != r.supplier_id))
termination_by l => l.length
decreasing_by
  simp only [List.length_cons]
  exact Nat.lt_succ_of_le (List.length_filter_le _ _)

/-- ORDER BY price ASC, upload_date DESC of the BestRegionPrice CTE, as a
strict comparison: the candidate strictly precedes the incumbent. -/
def beatsPrice (x a : PriceRow) : Prop :=
  x.price < a.price ∨ (x.price = a.price ∧ x.upload_date > a.upload_date)

instance (x a : PriceRow) : Decidable (beatsPrice x a) :=
  inferInstanceAs (Decidable (_ ∨ _))

/-- One step of selecting the first row of BestRegionPrice. -/
def bestStep (acc : Option PriceRow) (r : PriceRow) : Option PriceRow :=
  match acc with
  | none => some r
  | some a => if beatsPrice r a then some r else acc

/-- rn_best = 1: minimum by (price ASC, upload_date DESC), earlier row wins
remaining ties. -/
def bestByPriceDate (rows : List PriceRow) : Option PriceRow :=
  rows.foldl bestStep none

/-- The WHERE clause of the LatestSupplierPrices CTE: exact brand name, exact
article, region name, and only active price lists. -/
def regionPool (brand article region : String) (rows : List PriceRow) : List PriceRow :=
  rows.filter (fun r =>
    r.brand == brand && r.article == article && r.region == region && r.is_active)

/-- get_best_region_price (src/app.py lines 1115-1148): keep each supplier's
most recent active row for the part in the region, then take the minimum by
raw price (tie-break: most recent upload_date). -/
def get_best_region_price (brand article region : String) (rows : List PriceRow) :
    Option PriceRow :=
  bestByPriceDate (latestPerSupplier (regionPool brand article region rows))

/-- Modelled from the spec: conversion of an observation to base currency with
the current rate (base currency rate 1). -/
def specConvert (rates : List (String × ℚ)) (r : PriceRow) : ℚ :=
  if r.currency = "RUB" then r.price else r.price * dictGet rates r.currency 1

/-- Modelled from the spec: the claim's total tie-break order — lowest
converted price, then most recent timestamp, then lexicographically smallest
supplier name. -/
def specBetter (rates : List (String × ℚ)) (r a : PriceRow) : Prop :=
  specConvert rates r < specConvert rates a
  ∨ (specConvert rates r = specConvert rates a
     ∧ (r.upload_date > a.upload_date
        ∨ (r.upload_date = a.upload_date ∧ r.supplier_name < a.supplier_name)))

instance (rates : List (String × ℚ)) (r a : PriceRow) : Decidable (specBetter rates r a) :=
  inferInstanceAs (Decidable (_ ∨ _))

/-- Modelled from the spec: bestInRegion — convert each retained observation
to base currency and select the minimum under the claim's tie-break order. -/
def bestInRegionSpec (brand article region : String) (rates : List (String × ℚ))
    (rows : List PriceRow) : Option PriceRow :=
  (latestPerSupplier (regionPool brand article region rows)).foldl
    (fun acc r =>
      match acc with
      | none => some r
      | some a => if specBetter rates r a then some r else acc) none

/-! ## Helper lemmas for claim C2 -/

lemma bestOfSupplier_mem : ∀ (others : List PriceRow) (r : PriceRow),
    bestOfSupplier r others ∈ r :: others := by
  intro others
  induction others with
  | nil => intro r; simp [bestOfSupplier]
  | cons w ws ih =>
    intro r
    unfold bestOfSupplier
    simp only [List.foldl_cons]
    have hstep : ∀ u : PriceRow,
        ws.foldl (fun a x => if x.upload_date > a.upload_date then x else a) u
          = bestOfSupplier u ws := by
      intro u; rw [bestOfSupplier]
    by_cases h : w.upload_date > r.upload_date
    · rw [if_pos h, hstep]
      rcases List.mem_cons.mp (ih w) with h1 | h1
      · rw [h1]; exact List.mem_cons_of_mem _ (List.mem_cons_self _ _)
      · exact List.mem_cons_of_mem _ (List.mem_cons_of_mem _ h1)
    · rw [if_neg h, hstep]
      rcases List.mem_cons.mp (ih r) with h1 | h1
      · rw [h1]; exact List.mem_cons_self _ _
      · exact List.mem_cons_of_mem _ (List.mem_cons_of_mem _ h1)

lemma bestOfSupplier_date : ∀ (others : List PriceRow) (r : PriceRow),
    ∀ y ∈ r :: others, y.upload_date ≤ (bestOfSupplier r others).upload_date := by
  intro others
  induction others with
  | nil =>
    intro r y hy
    rw [List.mem_singleton] at hy
    rw [hy]
    exact le_refl _
  | cons w ws ih =>
    intro r y hy
    unfold bestOfSupplier
    simp only [List.foldl_cons]
    have hstep : ∀ u : PriceRow,
        ws.foldl (fun a x => if x.upload_date > a.upload_date then x else a) u
          = bestOfSupplier u ws := by
      intro u; rw [bestOfSupplier]
    by_cases h : w.upload_date > r.upload_date
    · rw [if_pos h, hstep]
      rcases List.mem_cons.mp hy with h1 | hy1
      · rw [h1]
        exact le_trans (le_of_lt h) (ih w w (List.mem_cons_self _ _))
      · rcases List.mem_cons.mp hy1 with h1 | hy2
        · rw [h1]; exact ih w w (List.mem_cons_self _ _)
        · exact ih w y (List.mem_cons_of_mem _ hy2)
    · rw [if_neg h, hstep]
      rcases List.mem_cons.mp hy with h1 | hy1
      · rw [h1]; exact ih r r (List.mem_cons_self _ _)
      · rcases List.mem_cons.mp hy1 with h1 | hy2
        · rw [h1]
          exact le_trans (le_of_not_lt h) (ih r r (List.mem_cons_self _ _))
        · exact ih r y (List.mem_cons_of_mem _ hy2)

lemma latestPerSupplier_mem_aux : ∀ (n : ℕ) (l : List PriceRow), l.length ≤ n →
    ∀ x ∈ latestPerSupplier l, x ∈ l := by
  intro n
  induction n with
  | zero =>
    intro l hl x hx
    rw [List.length_eq_zero.mp (Nat.le_zero.mp hl)] at hx ⊢
    simpa [latestPerSupplier] using hx
  | succ n ih =>
    intro l hl x hx
    cases l with
    | nil => simpa [latestPerSupplier] using hx
    | cons r rs =>
      rw [latestPerSupplier] at hx
      rcases List.mem_cons.mp hx with h1 | h1
      · rw [h1]
        rcases List.mem_cons.mp
            (bestOfSupplier_mem (rs.filter (fun x => x.supplier_id == r.supplier_id)) r)
          with h2 | h2
        · rw [h2]; exact List.mem_cons_self _ _
        · exact List.mem_cons_of_mem _ (List.mem_filter.mp h2).1
      · have hlen : (rs.filter (fun x => x.supplier_id != r.supplier_id)).length ≤ n := by
          have h3 := List.length_filter_le (fun x => x.supplier_id != r.supplier_id) rs
          have h4 : rs.length ≤ n := by
            simp only [List.length_cons] at hl
            omega
          omega
        exact List.mem_cons_of_mem _ ((List.mem_filter.mp (ih _ hlen x h1)).1)

lemma latestPerSupplier_mem {l : List PriceRow} {x : PriceRow}
    (hx : x ∈ latestPerSupplier l) : x ∈ l :=
  latestPerSupplier_mem_aux l.length l (le_refl _) x hx

lemma latestPerSupplier_latest_aux : ∀ (n : ℕ) (l : List PriceRow), l.length ≤ n →
    ∀ x ∈ latestPerSupplier l, ∀ y ∈ l, y.supplier_id = x.supplier_id →
      y.upload_date ≤ x.upload_date := by
  intro n
  induction n with
  | zero =>
    intro l hl x hx
    rw [List.length_eq_zero.mp (Nat.le_zero.mp hl)] at hx
    simp [latestPerSupplier] at hx
  | succ n ih =>
    intro l hl x hx y hy hsid
    cases l with
    | nil => simp [latestPerSupplier] at hx
    | cons r rs =>
      rw [latestPerSupplier] at hx
      have hlen : (rs.filter (fun x => x.supplier_id != r.supplier_id)).length ≤ n := by
        have h3 := List.length_filter_le (fun x => x.supplier_id != r.supplier_id) rs
        have h4 : rs.length ≤ n := by
          simp only [List.length_cons] at hl
          omega
        omega
      rcases List.mem_cons.mp hx with h1 | h1
      · -- x is this supplier group's most recent row
        have hxsid : x.supplier_id = r.supplier_id := by
          rw [h1]
          rcases List.mem_cons.mp
              (bestOfSupplier_mem (rs.filter (fun z => z.supplier_id == r.supplier_id)) r)
            with h2 | h2
          · rw [h2]
          · have := (List.mem_filter.mp h2).2
            simpa using this
        rcases List.mem_cons.mp hy with hyr | hyrs
        · rw [h1, hyr]
          exact bestOfSupplier_date _ r r (List.mem_cons_self _ _)
        · have hyf : y ∈ rs.filter (fun z => z.supplier_id == r.supplier_id) :=
            List.mem_filter.mpr ⟨hyrs, by simp [hsid, hxsid]⟩
          rw [h1]
          exact bestOfSupplier_date _ r y (List.mem_cons_of_mem _ hyf)
      · -- x comes from the other suppliers
        have hxmem : x ∈ rs.filter (fun z => z.supplier_id != r.supplier_id) :=
          latestPerSupplier_mem h1
        have hxsid : x.supplier_id ≠ r.supplier_id := by
          have := (List.mem_filter.mp hxmem).2
          simpa using this
        rcases List.mem_cons.mp hy with hyr | hyrs
        · exfalso
          apply hxsid
          rw [← hsid, hyr]
        · have hyf : y ∈ rs.filter (fun z => z.supplier_id != r.supplier_id) :=
            List.mem_filter.mpr ⟨hyrs, by simp [hsid, hxsid]⟩
          exact ih _ hlen x h1 y hyf hsid

lemma latestPerSupplier_latest {l : List PriceRow} {x : PriceRow}
    (hx : x ∈ latestPerSupplier l) :
    ∀ y ∈ l, y.supplier_id = x.supplier_id → y.upload_date ≤ x.upload_date :=
  latestPerSupplier_latest_aux l.length l (le_refl _) x hx

lemma beats_irrefl (a : PriceRow) : ¬ beatsPrice a a := by
  unfold beatsPrice
  simp

lemma beats_trans {x a r : PriceRow} (h1 : beatsPrice x a) (h2 : beatsPrice a r) :
    beatsPrice x r := by
  unfold beatsPrice at h1 h2 ⊢
  rcases h1 with h1 | ⟨h1p, h1d⟩ <;> rcases h2 with h2 | ⟨h2p, h2d⟩
  · exact Or.inl (lt_trans h1 h2)
  · exact Or.inl (h2p ▸ h1)
  · exact Or.inl (h1p ▸ h2)
  · exact Or.inr ⟨h1p.trans h2p, lt_trans h2d h1d⟩

lemma beats_contra {x a r : PriceRow} (hxr : beatsPrice x r)
    (hxa : ¬ beatsPrice x a) (har : ¬ beatsPrice a r) : False := by
  unfold beatsPrice at hxr hxa har
  push_neg at hxa har
  rcases hxr with h | ⟨hp, hd⟩
  · have := hxa.1
    have := har.1
    linarith
  · have hax : a.price ≤ x.price := hxa.1
    have hra : r.price ≤ a.price := har.1
    have h2 : x.price = a.price := by linarith
    have h1 : a.price = r.price := by linarith
    have hd1 : x.upload_date ≤ a.upload_date := hxa.2 h2
    have hd2 : a.upload_date ≤ r.upload_date := har.2 h1
    omega

lemma bestFold_mem : ∀ (l : List PriceRow) (a r : PriceRow),
    l.foldl bestStep (some a) = some r → r = a ∨ r ∈ l := by
  intro l
  induction l with
  | nil =>
    intro a r h
    simp only [List.foldl_nil, Option.some.injEq] at h
    exact Or.inl h.symm
  | cons x xs ih =>
    intro a r h
    simp only [List.foldl_cons] at h
    have hs : bestStep (some a) x = if beatsPrice x a then some x else some a := rfl
    rw [hs] at h
    by_cases hb : beatsPrice x a
    · rw [if_pos hb] at h
      rcases ih x r h with h1 | h1
      · exact Or.inr (by rw [h1]; exact List.mem_cons_self _ _)
      · exact Or.inr (List.mem_cons_of_mem _ h1)
    · rw [if_neg hb] at h
      rcases ih a r h with h1 | h1
      · exact Or.inl h1
      · exact Or.inr (List.mem_cons_of_mem _ h1)

lemma bestFold_min : ∀ (l : List PriceRow) (a r : PriceRow),
    l.foldl bestStep (some a) = some r →
    ¬ beatsPrice a r ∧ ∀ x ∈ l, ¬ beatsPrice x r := by
  intro l
  induction l with
  | nil =>
    intro a r h
    simp only [List.foldl_nil, Option.some.injEq] at h
    rw [← h]
    exact ⟨beats_irrefl a, by intro x hx; cases hx⟩
  | cons x xs ih =>
    intro a r h
    simp only [List.foldl_cons] at h
    have hs : bestStep (some a) x = if beatsPrice x a then some x else some a := rfl
    rw [hs] at h
    by_cases hb : beatsPrice x a
    · rw [if_pos hb] at h
      obtain ⟨h1, h2⟩ := ih x r h
      refine ⟨?_, ?_⟩
      · intro har
        exact h1 (beats_trans hb har)
      · intro y hy
        rcases List.mem_cons.mp hy with hy1 | hy1
        · rw [hy1]; exact h1
        · exact h2 y hy1
    · rw [if_neg hb] at h
      obtain ⟨h1, h2⟩ := ih a r h
      refine ⟨h1, ?_⟩
      · intro y hy
        rcases List.mem_cons.mp hy with hy1 | hy1
        · rw [hy1]
          intro hxr
          exact beats_contra hxr hb h1
        · exact h2 y hy1

lemma bestByPriceDate_spec {l : List PriceRow} {r : PriceRow}
    (h : bestByPriceDate l = some r) : r ∈ l ∧ ∀ x ∈ l, ¬ beatsPrice x r := by
  cases l with
  | nil => simp [bestByPriceDate] at h
  | cons x xs =>
    unfold bestByPriceDate at h
    simp only [List.foldl_cons] at h
    have hs : bestStep none x = some x := rfl
    rw [hs] at h
    obtain ⟨h1, h2⟩ := bestFold_min xs x r h
    refine ⟨?_, ?_⟩
    · rcases bestFold_mem xs x r h with hm | hm
      · rw [hm]; exact List.mem_cons_self _ _
      · exact List.mem_cons_of_mem _ hm
    · intro y hy
      rcases List.mem_cons.mp hy with hy1 | hy1
      · rw [hy1]; exact h1
      · exact h2 y hy1

/-! ## Theorems for claim C2 -/

/-- C2 counterexample: the claim says best-in-region converts each retained
observation to base currency and returns the minimum of the converted prices,
with a final supplier-name tie-break.  The code compares raw prices in
supplier currency: with supplier A offering 10 USD (rate 95, = 950 base) and
supplier B offering 5 EUR (rate 200, = 1000 base), get_best_region_price
returns B's row although its converted price 1000 exceeds A's 950, which the
claim's selection (bestInRegionSpec) returns. -/
theorem C2_best_region_price_compares_raw_prices :
    get_best_region_price "BOSCH" "A123" "Китай"
      [⟨10, "USD", 1, "A", "Китай", "BOSCH", "A123", 1, true⟩,
       ⟨5, "EUR", 2, "B", "Китай", "BOSCH", "A123", 1, true⟩]
      = some ⟨5, "EUR", 2, "B", "Китай", "BOSCH", "A123", 1, true⟩
    ∧ bestInRegionSpec "BOSCH" "A123" "Китай" [("USD", 95), ("EUR", 200)]
      [⟨10, "USD", 1, "A", "Китай", "BOSCH", "A123", 1, true⟩,
       ⟨5, "EUR", 2, "B", "Китай", "BOSCH", "A123", 1, true⟩]
      = some ⟨10, "USD", 1, "A", "Китай", "BOSCH", "A123", 1, true⟩
    ∧ specConvert [("USD", 95), ("EUR", 200)]
        ⟨5, "EUR", 2, "B", "Китай", "BOSCH", "A123", 1, true⟩
      > specConvert [("USD", 95), ("EUR", 200)]
        ⟨10, "USD", 1, "A", "Китай", "BOSCH", "A123", 1, true⟩ := by
  refine ⟨?_, ?_, ?_⟩
  · simp [get_best_region_price, regionPool, latestPerSupplier, bestOfSupplier,
      bestByPriceDate, bestStep, beatsPrice]
    norm_num
  · simp [bestInRegionSpec, regionPool, latestPerSupplier, bestOfSupplier,
      specBetter, specConvert, dictGet]
    norm_num
  · simp [specConvert, dictGet]
    norm_num

/-- C2 as amended: get_best_region_price draws from the active rows matching
the part and region, keeps each supplier's most recent observation, and
returns the row minimal by RAW price in supplier currency, ties broken by most
recent upload date (no supplier-name tie-break; conversion to base currency
happens only after selection). -/
theorem C2_get_best_region_price_amended (brand article region : String)
    (rows : List PriceRow) (r : PriceRow)
    (h : get_best_region_price brand article region rows = some r) :
    r ∈ regionPool brand article region rows
    ∧ r.is_active = true
    ∧ (∀ y ∈ regionPool brand article region rows,
        y.supplier_id = r.supplier_id → y.upload_date ≤ r.upload_date)
    ∧ (∀ x ∈ latestPerSupplier (regionPool brand article region rows),
        r.price ≤ x.price ∧ (x.price = r.price → x.upload_date ≤ r.upload_date)) := by
  unfold get_best_region_price at h
  obtain ⟨hmem, hmin⟩ := bestByPriceDate_spec h
  have hpool : r ∈ regionPool brand article region rows := latestPerSupplier_mem hmem
  have hact : r.is_active = true := by
    have hpred := (List.mem_filter.mp hpool).2
    simp only [Bool.and_eq_true] at hpred
    exact hpred.2
  refine ⟨hpool, hact, ?_, ?_⟩
  · intro y hy hsid
    exact latestPerSupplier_latest hmem y hy hsid
  · intro x hx
    have hnb := hmin x hx
    unfold beatsPrice at hnb
    push_neg at hnb
    exact ⟨hnb.1, fun hpe => hnb.2 hpe⟩

/-- Witness for C2 as amended: a single active row is selected and satisfies
the characterization. -/
theorem C2_get_best_region_price_amended_witness :
    (⟨9, "USD", 1, "A", "Китай", "BOSCH", "A123", 5, true⟩ : PriceRow)
      ∈ regionPool "BOSCH" "A123" "Китай"
        [⟨9, "USD", 1, "A", "Китай", "BOSCH", "A123", 5, true⟩]
    ∧ (⟨9, "USD", 1, "A", "Китай", "BOSCH", "A123", 5, true⟩ : PriceRow).is_active = true
    ∧ (∀ y ∈ regionPool "BOSCH" "A123" "Китай"
          [⟨9, "USD", 1, "A", "Китай", "BOSCH", "A123", 5, true⟩],
        y.supplier_id = 1 → y.upload_date ≤ 5)
    ∧ (∀ x ∈ latestPerSupplier (regionPool "BOSCH" "A123" "Китай"
          [⟨9, "USD", 1, "A", "Китай", "BOSCH", "A123", 5, true⟩]),
        (9 : ℚ) ≤ x.price ∧ (x.price = 9 → x.upload_date ≤ 5)) :=
  C2_get_best_region_price_amended "BOSCH" "A123" "Китай"
    [⟨9, "USD", 1, "A", "Китай", "BOSCH", "A123", 5, true⟩]
    ⟨9, "USD", 1, "A", "Китай", "BOSCH", "A123", 5, true⟩
    (by simp [get_best_region_price, regionPool, latestPerSupplier, bestOfSupplier,
      bestByPriceDate, bestStep])

/-! ## Brand resolution (src/app.py: find_brand_by_name lines 119-149,
get_or_create_brand lines 152-186)

The source mixes two case-folding semantics: the lookup key is built with
Python str.upper()/str.strip() (full Unicode case mapping, all whitespace),
while the SQL WHERE clauses apply SQLite UPPER()/TRIM() to the stored names
(ASCII-only case folding, space-only trimming).  Both are embedded:
`pyUpperChar` models Python upper-casing on the ASCII and Cyrillic letters (the
alphabets this application uses; Python maps them all), `sqlUpperChar` folds
ASCII only, `isWs` models the whitespace classes Python strips (space, tab, CR,
LF) and `isSp` the single space character SQLite TRIM removes. -/

/-- Python str.upper on one character, on the ASCII and Cyrillic ranges. -/
def pyUpperChar (c : Char) : Char :=
  if 97 ≤ c.toNat ∧ c.toNat ≤ 122 then Char.ofNat (c.toNat - 32)
  else if 1072 ≤ c.toNat ∧ c.toNat ≤ 1103 then Char.ofNat (c.toNat - 32)
  else if c.toNat = 1105 then Char.ofNat 1025
  else c

/-- SQLite UPPER() on one character: ASCII letters only. -/
def sqlUpperChar (c : Char) : Char :=
  if 97 ≤ c.toNat ∧ c.toNat ≤ 122 then Char.ofNat (c.toNat - 32) else c

/-- Whitespace stripped by Python str.strip(): space, tab, CR, LF. -/
def isWs (c : Char) : Bool :=
  c.toNat == 32 || c.toNat == 9 || c.toNat == 13 || c.toNat == 10

/-- The single character removed by SQLite TRIM(). -/
def isSp (c : Char) : Bool := c.toNat == 32

/-- Remove the characters satisfying p from both ends. -/
def stripListWith (p : Char → Bool) (l : List Char) : List Char :=
  ((l.dropWhile p).reverse.dropWhile p).reverse

/-- Python str.upper(). -/
def pyUpper (s : String) : String := String.mk (s.data.map pyUpperChar)

/-- SQLite UPPER(). -/
def sqlUpper (s : String) : String := String.mk (s.data.map sqlUpperChar)

/-- Python str.strip(). -/
def pyStrip (s : String) : String := String.mk (stripListWith isWs s.data)

/-- SQLite TRIM(). -/
def sqlTrim (s : String) : String := String.mk (stripListWith isSp s.data)

/-! ### Character-level lemmas -/

lemma char_toNat_ofNat {n : ℕ} (h : n < 55296) : (Char.ofNat n).toNat = n := by
  unfold Char.ofNat
  rw [dif_pos (by unfold Nat.isValidChar; omega)]
  rfl

lemma pyUpperChar_toNat (c : Char) : (pyUpperChar c).toNat =
    if 97 ≤ c.toNat ∧ c.toNat ≤ 122 then c.toNat - 32
    else if 1072 ≤ c.toNat ∧ c.toNat ≤ 1103 then c.toNat - 32
    else if c.toNat = 1105 then 1025
    else c.toNat := by
  unfold pyUpperChar
  split_ifs with h1 h2 h3
  · exact char_toNat_ofNat (by omega)
  · exact char_toNat_ofNat (by omega)
  · exact char_toNat_ofNat (by omega)
  · rfl

lemma pyUpperChar_fix (d : Char) (h1 : ¬(97 ≤ d.toNat ∧ d.toNat ≤ 122))
    (h2 : ¬(1072 ≤ d.toNat ∧ d.toNat ≤ 1103)) (h3 : d.toNat ≠ 1105) :
    pyUpperChar d = d := by
  unfold pyUpperChar
  rw [if_neg h1, if_neg h2, if_neg h3]

lemma pyUpperChar_idem (c : Char) : pyUpperChar (pyUpperChar c) = pyUpperChar c := by
  have ht := pyUpperChar_toNat c
  by_cases h1 : 97 ≤ c.toNat ∧ c.toNat ≤ 122
  · rw [if_pos h1] at ht
    exact pyUpperChar_fix _ (by omega) (by omega) (by omega)
  · rw [if_neg h1] at ht
    by_cases h2 : 1072 ≤ c.toNat ∧ c.toNat ≤ 1103
    · rw [if_pos h2] at ht
      exact pyUpperChar_fix _ (by omega) (by omega) (by omega)
    · rw [if_neg h2] at ht
      by_cases h3 : c.toNat = 1105
      · rw [if_pos h3] at ht
        exact pyUpperChar_fix _ (by omega) (by omega) (by omega)
      · rw [if_neg h3] at ht
        rw [pyUpperChar_fix c (by omega) (by omega) (by omega)]
        exact pyUpperChar_fix c (by omega) (by omega) (by omega)

lemma isWs_pyUpperChar (c : Char) : isWs (pyUpperChar c) = isWs c := by
  have ht := pyUpperChar_toNat c
  have l : ∀ m : ℕ, 33 ≤ m →
      ((m == 32 || m == 9 || m == 13 || m == 10) = false) := by
    intro m hm
    simp only [Bool.or_eq_false_iff, beq_eq_false_iff_ne, ne_eq]
    omega
  unfold isWs
  by_cases h1 : 97 ≤ c.toNat ∧ c.toNat ≤ 122
  · rw [if_pos h1] at ht
    rw [ht, l _ (by omega), l _ (by omega)]
  · rw [if_neg h1] at ht
    by_cases h2 : 1072 ≤ c.toNat ∧ c.toNat ≤ 1103
    · rw [if_pos h2] at ht
      rw [ht, l _ (by omega), l _ (by omega)]
    · rw [if_neg h2] at ht
      by_cases h3 : c.toNat = 1105
      · rw [if_pos h3] at ht
        rw [ht, l _ (by omega), l _ (by omega)]
      · rw [if_neg h3] at ht
        rw [ht]

lemma sqlUpperChar_eq_pyUpperChar_of_ascii (c : Char) (h : c.toNat < 128) :
    sqlUpperChar c = pyUpperChar c := by
  unfold sqlUpperChar pyUpperChar
  by_cases h1 : 97 ≤ c.toNat ∧ c.toNat ≤ 122
  · rw [if_pos h1, if_pos h1]
  · rw [if_neg h1, if_neg h1, if_neg (by omega), if_neg (by omega)]

/-! ### Strip and upper-case lemmas -/

lemma head?_dropWhile (p : Char → Bool) : ∀ (l : List Char) (x : Char),
    (l.dropWhile p).head? = some x → p x = false := by
  intro l
  induction l with
  | nil => intro x hx; simp [List.dropWhile] at hx
  | cons a as ih =>
    intro x hx
    rw [List.dropWhile_cons] at hx
    by_cases hp : p a = true
    · rw [if_pos hp] at hx
      exact ih x hx
    · rw [if_neg hp] at hx
      simp only [List.head?_cons, Option.some.injEq] at hx
      rw [← hx]
      simpa using hp

lemma dropWhile_fix (p : Char → Bool) (l : List Char)
    (h : ∀ x, l.head? = some x → p x = false) : l.dropWhile p = l := by
  cases l with
  | nil => rfl
  | cons a as =>
    rw [List.dropWhile_cons, if_neg (by rw [h a rfl]; simp)]

lemma getLast?_dropWhile (p : Char → Bool) : ∀ (l : List Char),
    l.dropWhile p ≠ [] → (l.dropWhile p).getLast? = l.getLast? := by
  intro l
  induction l with
  | nil => intro h; simp [List.dropWhile] at h
  | cons a as ih =>
    intro h
    rw [List.dropWhile_cons] at h ⊢
    by_cases hp : p a = true
    · rw [if_pos hp] at h ⊢
      cases has : as with
      | nil =>
        rw [has] at h
        simp [List.dropWhile] at h
      | cons b bs =>
        rw [← has, ih h, has, List.getLast?_cons_cons]
    · rw [if_neg hp]

lemma strip_head?_fails (p : Char → Bool) (l : List Char) (x : Char)
    (hx : (stripListWith p l).head? = some x) : p x = false := by
  unfold stripListWith at hx
  rw [List.head?_reverse] at hx
  have hne : (l.dropWhile p).reverse.dropWhile p ≠ [] := by
    intro he
    rw [he] at hx
    simp at hx
  rw [getLast?_dropWhile p _ hne, List.getLast?_reverse] at hx
  exact head?_dropWhile p l x hx

lemma strip_revhead?_fails (p : Char → Bool) (l : List Char) (x : Char)
    (hx : (stripListWith p l).reverse.head? = some x) : p x = false := by
  unfold stripListWith at hx
  rw [List.reverse_reverse] at hx
  exact head?_dropWhile p _ x hx

lemma stripListWith_fix (q : Char → Bool) (m : List Char)
    (hhead : ∀ x, m.head? = some x → q x = false)
    (hlast : ∀ x, m.reverse.head? = some x → q x = false) :
    stripListWith q m = m := by
  unfold stripListWith
  rw [dropWhile_fix q m hhead, dropWhile_fix q m.reverse hlast, List.reverse_reverse]

lemma strip_subsumed_fix (p q : Char → Bool) (l : List Char)
    (himp : ∀ c, q c = true → p c = true) :
    stripListWith q (stripListWith p l) = stripListWith p l := by
  refine stripListWith_fix q (stripListWith p l) ?_ ?_
  · intro x hx
    have hp := strip_head?_fails p l x hx
    cases hq : q x with
    | false => rfl
    | true => rw [himp x hq] at hp; cases hp
  · intro x hx
    have hp := strip_revhead?_fails p l x hx
    cases hq : q x with
    | false => rfl
    | true => rw [himp x hq] at hp; cases hp

lemma stripListWith_map (p : Char → Bool) (f : Char → Char) (l : List Char)
    (hp : ∀ c, p (f c) = p c) :
    stripListWith p (l.map f) = (stripListWith p l).map f := by
  have hpf : p ∘ f = p := funext hp
  unfold stripListWith
  rw [List.dropWhile_map, hpf, ← List.map_reverse, List.dropWhile_map, hpf,
    ← List.map_reverse]

lemma mem_dropWhile (p : Char → Bool) : ∀ (l : List Char) (x : Char),
    x ∈ l.dropWhile p → x ∈ l := by
  intro l
  induction l with
  | nil => intro x hx; simpa [List.dropWhile] using hx
  | cons a as ih =>
    intro x hx
    rw [List.dropWhile_cons] at hx
    by_cases hp : p a = true
    · rw [if_pos hp] at hx
      exact List.mem_cons_of_mem _ (ih x hx)
    · rw [if_neg hp] at hx
      exact hx

lemma mem_stripListWith (p : Char → Bool) (l : List Char) (x : Char)
    (hx : x ∈ stripListWith p l) : x ∈ l := by
  unfold stripListWith at hx
  rw [List.mem_reverse] at hx
  have h1 := mem_dropWhile p _ x hx
  rw [List.mem_reverse] at h1
  exact mem_dropWhile p l x h1

/-! ### String-level normalization lemmas -/

lemma pyStrip_pyUpper_comm (s : String) : pyStrip (pyUpper s) = pyUpper (pyStrip s) := by
  unfold pyStrip pyUpper
  rw [stripListWith_map isWs pyUpperChar s.data isWs_pyUpperChar]

lemma pyUpper_idem (s : String) : pyUpper (pyUpper s) = pyUpper s := by
  unfold pyUpper
  rw [List.map_map]
  congr 1
  exact List.map_congr_left (fun c _ => pyUpperChar_idem c)

lemma pyStrip_idem (s : String) : pyStrip (pyStrip s) = pyStrip s := by
  unfold pyStrip
  rw [strip_subsumed_fix isWs isWs s.data (fun c h => h)]

lemma norm_idem (s : String) :
    pyStrip (pyUpper (pyStrip (pyUpper s))) = pyStrip (pyUpper s) := by
  rw [pyStrip_pyUpper_comm (pyStrip (pyUpper s)), pyStrip_idem (pyUpper s),
    ← pyStrip_pyUpper_comm (pyUpper s), pyUpper_idem s]

lemma sqlTrim_pyStrip (s : String) : sqlTrim (pyStrip s) = pyStrip s := by
  show String.mk (stripListWith isSp (stripListWith isWs s.data))
      = String.mk (stripListWith isWs s.data)
  congr 1
  refine strip_subsumed_fix isWs isSp s.data ?_
  intro c h
  unfold isSp at h
  unfold isWs
  rw [h]
  rfl

lemma sqlUpper_eq_pyUpper_of_ascii (s : String) (h : ∀ c ∈ s.data, c.toNat < 128) :
    sqlUpper s = pyUpper s := by
  unfold sqlUpper pyUpper
  congr 1
  exact List.map_congr_left (fun c hc => sqlUpperChar_eq_pyUpperChar_of_ascii c (h c hc))

/-- The stored display name of a newly created brand matches its own lookup
key: for an ASCII raw name, UPPER(TRIM(raw.strip())) equals the normalized key
raw.upper().strip(). -/
lemma sql_key_of_stripped_ascii (s : String) (h : ∀ c ∈ s.data, c.toNat < 128) :
    sqlUpper (sqlTrim (pyStrip s)) = pyStrip (pyUpper s) := by
  rw [sqlTrim_pyStrip, sqlUpper_eq_pyUpper_of_ascii (pyStrip s)
    (fun c hc => h c (mem_stripListWith isWs s.data c hc)),
    pyStrip_pyUpper_comm]

/-! ### Brand store -/

/-- One row of the brands table (name is the stored display text). -/
structure Brand where
  id : ℕ
  name : String
deriving Repr, DecidableEq

/-- One row of the brand_synonyms table. -/
structure Synonym where
  brand_id : ℕ
  synonym_name : String
deriving Repr, DecidableEq

/-- The brand directory: brands and synonyms in rowid order, plus the next
AUTOINCREMENT id. -/
structure BrandDb where
  brands : List Brand
  synonyms : List Synonym
  next_brand_id : ℕ
deriving Repr, DecidableEq

/-- find_brand_by_name (src/app.py lines 119-149): None for a falsy name;
otherwise normalize with Python upper().strip() and look for an exact match
against UPPER(TRIM(name)) over brands, then over synonyms. -/
def find_brand_by_name (brand_name : String) (db : BrandDb) : Option ℕ :=
  if brand_name = "" then none
  else
    let normalized_name := pyStrip (pyUpper brand_name)
    match db.brands.find? (fun b => sqlUpper (sqlTrim b.name) == normalized_name) with
    | some b => some b.id
    | none =>
      match db.synonyms.find?
          (fun syn => sqlUpper (sqlTrim syn.synonym_name) == normalized_name) with
      | some syn => some syn.brand_id
      | none => none

/-- get_or_create_brand (src/app.py lines 152-186): None only for the empty
string (a whitespace-only name passes the `if not brand_name` guard); looks up
the normalized name via find_brand_by_name; otherwise inserts a brand whose
display name is the stripped original, and — when normalizing changed the
upper-cased original, i.e. the name had surrounding whitespace — also inserts
the normalized key as a synonym, skipping the insert if that synonym text
already exists (the sqlite3.IntegrityError is swallowed). -/
def get_or_create_brand (brand_name : String) (db : BrandDb) : Option ℕ × BrandDb :=
  if brand_name = "" then (none, db)
  else
    let normalized_name := pyStrip (pyUpper brand_name)
    match find_brand_by_name normalized_name db with
    | some id => (some id, db)
    | none =>
      let brand_id := db.next_brand_id
      let brands1 := db.brands ++ [⟨brand_id, pyStrip brand_name⟩]
      let synonyms1 :=
        if normalized_name ≠ pyUpper brand_name then
          if db.synonyms.any (fun syn => syn.synonym_name == normalized_name) then
            db.synonyms
          else
            db.synonyms ++ [⟨brand_id, normalized_name⟩]
        else db.synonyms
      (some brand_id, ⟨brands1, synonyms1, brand_id + 1⟩)

lemma get_or_create_brand_found (n : String) (db : BrandDb) (id : ℕ)
    (hne : n ≠ "") (hf : find_brand_by_name (pyStrip (pyUpper n)) db = some id) :
    get_or_create_brand n db = (some id, db) := by
  unfold get_or_create_brand
  rw [if_neg hne]
  simp only [hf]

lemma get_or_create_brand_created (n : String) (db : BrandDb)
    (hne : n ≠ "") (hf : find_brand_by_name (pyStrip (pyUpper n)) db = none) :
    (get_or_create_brand n db).1 = some db.next_brand_id
    ∧ (get_or_create_brand n db).2.brands
        = db.brands ++ [⟨db.next_brand_id, pyStrip n⟩]
    ∧ (get_or_create_brand n db).2.next_brand_id = db.next_brand_id + 1 := by
  unfold get_or_create_brand
  rw [if_neg hne]
  simp only [hf]
  exact ⟨trivial, trivial, trivial⟩

lemma find_brand_by_name_none_parts (k : String) (db : BrandDb)
    (hk : k ≠ "") (hkk : pyStrip (pyUpper k) = k)
    (hf : find_brand_by_name k db = none) :
    db.brands.find? (fun b => sqlUpper (sqlTrim b.name) == k) = none
    ∧ db.synonyms.find? (fun syn => sqlUpper (sqlTrim syn.synonym_name) == k) = none := by
  unfold find_brand_by_name at hf
  rw [if_neg hk] at hf
  simp only [hkk] at hf
  cases hb : db.brands.find? (fun b => sqlUpper (sqlTrim b.name) == k) with
  | some b =>
    simp only [hb] at hf
    exact Option.noConfusion hf
  | none =>
    simp only [hb] at hf
    cases hsy : db.synonyms.find?
        (fun syn => sqlUpper (sqlTrim syn.synonym_name) == k) with
    | some syn =>
      simp only [hsy] at hf
      exact Option.noConfusion hf
    | none => exact ⟨rfl, rfl⟩

/-! ## Theorems for claims C6 and C7 -/

/-- C6 counterexample: the claim says resolution is invariant under letter
case for every raw name.  The lookup key is upper-cased with Python semantics
(full Unicode) but the stored names are compared through SQLite UPPER, which
folds ASCII only: after resolving the Cyrillic name "Лада" (creating brand 1,
and no synonym, since the normalized key equals the upper-cased original), the
later call with "ЛАДА" — the same name upper-cased — fails to match and
creates a second brand. -/
theorem C6_cyrillic_case_creates_duplicate_brand :
    (get_or_create_brand "Лада" ⟨[], [], 1⟩).1 = some 1
    ∧ (get_or_create_brand "ЛАДА" (get_or_create_brand "Лада" ⟨[], [], 1⟩).2).1 = some 2
    ∧ pyUpper "Лада" = "ЛАДА" := by
  refine ⟨?_, ?_, ?_⟩ <;> decide

/-- C6 as amended: brand resolution is case- and whitespace-invariant for
ASCII names: once resolveOrCreateBrand has been called with a raw name of
ASCII characters, any later call whose normalized key (upper-case, stripped)
is the same — in particular any variant differing only in letter case or
leading/trailing whitespace — returns the same brand id.  For names with
non-ASCII lower-case letters the invariance can fail (see the Cyrillic
counterexample), because SQLite UPPER folds only ASCII. -/
theorem C6_brand_case_invariance_ascii (db : BrandDb) (n1 n2 : String)
    (hascii : ∀ c ∈ n1.data, c.toNat < 128)
    (h2ne : n2 ≠ "")
    (hkey : pyStrip (pyUpper n2) = pyStrip (pyUpper n1))
    (hk : pyStrip (pyUpper n1) ≠ "") :
    (get_or_create_brand n2 (get_or_create_brand n1 db).2).1
      = (get_or_create_brand n1 db).1 := by
  have h1ne : n1 ≠ "" := by
    intro h
    apply hk
    rw [h]
    rfl
  cases hfind : find_brand_by_name (pyStrip (pyUpper n1)) db with
  | some id =>
    have hc1 := get_or_create_brand_found n1 db id h1ne hfind
    have hc2 := get_or_create_brand_found n2 db id h2ne (by rw [hkey]; exact hfind)
    rw [hc1, hc2]
  | none =>
    obtain ⟨hres1, hbr1, _⟩ := get_or_create_brand_created n1 db h1ne hfind
    obtain ⟨hbn, hsn⟩ :=
      find_brand_by_name_none_parts (pyStrip (pyUpper n1)) db hk (norm_idem n1) hfind
    have hpred : (sqlUpper (sqlTrim (pyStrip n1)) == pyStrip (pyUpper n1)) = true := by
      rw [sql_key_of_stripped_ascii n1 hascii]
      exact beq_self_eq_true _
    have hfind2 : find_brand_by_name (pyStrip (pyUpper n1)) (get_or_create_brand n1 db).2
        = some db.next_brand_id := by
      unfold find_brand_by_name
      rw [if_neg hk]
      simp only [norm_idem n1]
      rw [hbr1, List.find?_append, hbn]
      simp [List.find?_cons, hpred]
    have hc2 := get_or_create_brand_found n2 _ db.next_brand_id h2ne
      (by rw [hkey]; exact hfind2)
    rw [hc2, hres1]

/-- Witness for C6 as amended: "Bosch" then " BOSCH " resolve to the same id. -/
theorem C6_brand_case_invariance_ascii_witness :
    (get_or_create_brand " BOSCH " (get_or_create_brand "Bosch" ⟨[], [], 1⟩).2).1
      = (get_or_create_brand "Bosch" ⟨[], [], 1⟩).1 :=
  C6_brand_case_invariance_ascii ⟨[], [], 1⟩ "Bosch" " BOSCH "
    (by decide) (by decide) (by decide) (by decide)

/-- C7 counterexample: the claim says a whitespace-only name fails with
InvalidInput instead of creating a brand.  The guard `if not brand_name` only
catches the empty string: for the name " " the code proceeds, finds nothing,
and creates a brand whose display name is the empty string, returning its id. -/
theorem C7_whitespace_only_name_creates_brand :
    (get_or_create_brand " " ⟨[], [], 1⟩).1 = some 1
    ∧ (get_or_create_brand " " ⟨[], [], 1⟩).2.brands = [⟨1, ""⟩] := by
  exact ⟨by decide, by decide⟩

/-- C7 as amended: resolveOrCreateBrand rejects (returns None for) exactly the
empty string, leaving the store untouched; for every other name — including
whitespace-only names, which the claim said would be rejected — it returns a
brand id, creating the brand if no match exists. -/
theorem C7_get_or_create_brand_totality (db : BrandDb) (n : String) :
    (get_or_create_brand "" db = (none, db))
    ∧ (n ≠ "" → ∃ id : ℕ, (get_or_create_brand n db).1 = some id) := by
  constructor
  · unfold get_or_create_brand
    rw [if_pos rfl]
  · intro hne
    cases hfind : find_brand_by_name (pyStrip (pyUpper n)) db with
    | some id =>
      exact ⟨id, by rw [get_or_create_brand_found n db id hne hfind]⟩
    | none =>
      exact ⟨db.next_brand_id, (get_or_create_brand_created n db hne hfind).1⟩

/-- Witness for C7 as amended, at the empty name and at "Bosch". -/
theorem C7_get_or_create_brand_totality_witness :
    (get_or_create_brand "" ⟨[], [], 1⟩ = (none, ⟨[], [], 1⟩))
    ∧ ∃ id : ℕ, (get_or_create_brand "Bosch" ⟨[], [], 1⟩).1 = some id :=
  ⟨(C7_get_or_create_brand_totality ⟨[], [], 1⟩ "Bosch").1,
   (C7_get_or_create_brand_totality ⟨[], [], 1⟩ "Bosch").2 (by decide)⟩

/-! ## Catalog matching (src/app.py: normalize_article lines 112-117,
get_or_create_part_in_catalog lines 188-212, find_part_id lines 1603-1615) -/

/-- normalize_article (src/app.py lines 112-117): keep only ASCII letters and
digits, upper-case the remainder; empty input stays empty. -/
def normalize_article (article : String) : String :=
  String.mk ((article.data.filter (fun c => c.isAlpha || c.isDigit)).map Char.toUpper)

/-- One row of parts_catalog, with the fields catalog matching reads. -/
structure CatalogEntry where
  id : ℕ
  brand_id : ℕ
  main_article : String
deriving Repr, DecidableEq

/-- The stores catalog matching touches: the brand directory, the catalog and
the next part id. -/
structure Db where
  brandDb : BrandDb
  catalog : List CatalogEntry
  next_part_id : ℕ
deriving Repr, DecidableEq

/-- get_or_create_part_in_catalog (src/app.py lines 188-212): resolve or
create the brand, then look up the part by (brand_id, main_article) with the
article compared EXACTLY AS PASSED — the function itself performs no article
normalization — creating a minimal row if absent. -/
def get_or_create_part_in_catalog (brand_name article : String) (db : Db) :
    Option ℕ × Db :=
  if brand_name = "" ∨ article = "" then (none, db)
  else
    match get_or_create_brand brand_name db.brandDb with
    | (none, _) => (none, db)
    | (some brand_id, bdb) =>
      match db.catalog.find? (fun p => p.brand_id == brand_id && p.main_article == article) with
      | some p => (some p.id, ⟨bdb, db.catalog, db.next_part_id⟩)
      | none =>
        (some db.next_part_id,
         ⟨bdb, db.catalog ++ [⟨db.next_part_id, brand_id, article⟩], db.next_part_id + 1⟩)

/-- find_part_id (src/app.py lines 1603-1615): pure lookup by exact brand name
(case-sensitive equality on the stored display name) and exact article string;
no normalization, no creation. -/
def find_part_id (brand_name article : String) (db : Db) : Option ℕ :=
  if brand_name = "" ∨ article = "" then none
  else
    match (db.brandDb.brands.filterMap (fun b =>
        if b.name == brand_name then
          db.catalog.find? (fun p => p.brand_id == b.id && p.main_article == article)
        else none)).head? with
    | some p => some p.id
    | none => none

/-- The ingestion paths that resolve parts from spreadsheet rows (expected
sale prices, src/app.py lines 2483 and 2509; sales statistics, lines 2678 and
2711) apply normalize_article to the article column before calling
get_or_create_part_in_catalog. -/
def upload_resolve_part (brand_name article : String) (db : Db) : Option ℕ × Db :=
  get_or_create_part_in_catalog brand_name (normalize_article article) db

/-! ## Theorems for claim C9 -/

/-- C9 counterexample: the claim says part resolution normalizes the article
before matching, so two raw articles with the same normalization resolve to
the same part id.  get_or_create_part_in_catalog matches the article exactly
as passed: with brand "BOSCH" (id 1) and an existing part ("BOSCH", "A123",
id 10), resolving ("BOSCH", "A123") returns 10 but resolving ("BOSCH",
"A-123") — same normalization "A123" — creates and returns a new part 11. -/
theorem C9_raw_article_resolves_to_different_part :
    (get_or_create_part_in_catalog "BOSCH" "A123"
        ⟨⟨[⟨1, "BOSCH"⟩], [], 2⟩, [⟨10, 1, "A123"⟩], 11⟩).1 = some 10
    ∧ (get_or_create_part_in_catalog "BOSCH" "A-123"
        ⟨⟨[⟨1, "BOSCH"⟩], [], 2⟩, [⟨10, 1, "A123"⟩], 11⟩).1 = some 11
    ∧ normalize_article "A-123" = normalize_article "A123"
    ∧ (10 : ℕ) ≠ 11 := by
  refine ⟨?_, ?_, ?_, ?_⟩ <;> decide

/-- C9 as amended: get_or_create_part_in_catalog (and find_part_id) match the
article string exactly as given; the spreadsheet ingestion paths apply
normalize_article to the article column first, so for rows arriving through
those paths two raw articles with equal normalization resolve to the same
part id (found or created), while direct calls with raw strings do not. -/
theorem C9_upload_path_normalizes_article (b a1 a2 : String) (db : Db)
    (h : normalize_article a1 = normalize_article a2) :
    upload_resolve_part b a1 db = upload_resolve_part b a2 db := by
  unfold upload_resolve_part
  rw [h]

/-- Witness for C9 as amended: "A-123" and "a123" both normalize to "A123". -/
theorem C9_upload_path_normalizes_article_witness :
    upload_resolve_part "BOSCH" "A-123" ⟨⟨[⟨1, "BOSCH"⟩], [], 2⟩, [⟨10, 1, "A123"⟩], 11⟩
      = upload_resolve_part "BOSCH" "a123" ⟨⟨[⟨1, "BOSCH"⟩], [], 2⟩, [⟨10, 1, "A123"⟩], 11⟩ :=
  C9_upload_path_normalizes_article "BOSCH" "A-123" "a123"
    ⟨⟨[⟨1, "BOSCH"⟩], [], 2⟩, [⟨10, 1, "A123"⟩], 11⟩ (by decide)

/-! ## Part enrichment (src/app.py: upload_file lines 2247-2263,
api_catalog_upload lines 2987-3000) -/

/-- Python truthiness of an optional string: None and "" are falsy. -/
def truthyS : Option String → Bool
  | none => false
  | some s => s != ""

/-- The enrichable fields of a parts_catalog row. -/
structure CatalogPart where
  name_ru : Option String
  name_en : Option String
  weight : Option ℚ
  additional_article : Option String
  volume_coefficient : Option ℚ
  notes : Option String
  updated_at : ℕ
deriving Repr, DecidableEq

/-- The enrichment block of upload_file (src/app.py lines 2247-2263): name and
weight from the price-list row are applied only when the stored value is falsy
(NULL or empty/zero) and the incoming value truthy; updated_at is refreshed
when any field changes. -/
def upload_file_enrich (part : CatalogPart) (name : Option String) (weight : Option ℚ)
    (now : ℕ) : CatalogPart :=
  let upd_name := !truthyS part.name_ru && truthyS name
  let upd_weight := !truthyQ part.weight && truthyQ weight
  if upd_name || upd_weight then
    { part with
      name_ru := if upd_name then name else part.name_ru,
      weight := if upd_weight then weight else part.weight,
      updated_at := now }
  else part

/-- A catalog-upload row: none models an absent column or a NaN cell. -/
structure CatalogRow where
  additional_article : Option String
  name_ru : Option String
  name_en : Option String
  weight : Option ℚ
  volume_coefficient : Option ℚ
  notes : Option String
deriving Repr, DecidableEq

/-- Take the new value when present, else keep the old. -/
def fieldOr {α : Type} (new old : Option α) : Option α :=
  match new with
  | some v => some v
  | none => old

/-- The update block of api_catalog_upload (src/app.py lines 2987-3000): every
field present (non-NaN) in the row is written over the stored value —
regardless of whether the stored value is already populated — and updated_at
is refreshed when any field is present. -/
def catalog_upload_update (part : CatalogPart) (row : CatalogRow) (now : ℕ) : CatalogPart :=
  if row.additional_article.isSome || row.name_ru.isSome || row.name_en.isSome
      || row.weight.isSome || row.volume_coefficient.isSome || row.notes.isSome then
    { part with
      additional_article := fieldOr row.additional_article part.additional_article,
      name_ru := fieldOr row.name_ru part.name_ru,
      name_en := fieldOr row.name_en part.name_en,
      weight := fieldOr row.weight part.weight,
      volume_coefficient := fieldOr row.volume_coefficient part.volume_coefficient,
      notes := fieldOr row.notes part.notes,
      updated_at := now }
  else part

/-! ## Theorems for claim C4 -/

/-- C4 counterexample: the claim says an already-populated field is never
overwritten by a later ingestion.  The catalog-upload ingestion overwrites: a
part whose stored Russian name is populated gets it replaced by the incoming
row's name. -/
theorem C4_catalog_upload_overwrites_populated_field :
    (catalog_upload_update ⟨some "Старое", none, some 2, none, none, none, 0⟩
        ⟨none, some "Новое", none, none, none, none⟩ 5).name_ru = some "Новое"
    ∧ (⟨some "Старое", none, some 2, none, none, none, 0⟩ : CatalogPart).name_ru
        = some "Старое"
    ∧ ("Старое" : String) ≠ "Новое" := by
  refine ⟨?_, ?_, ?_⟩ <;> decide

/-- C4 as amended: the price-list upload path has fill-missing semantics — a
populated (truthy) name or weight is never overwritten, and updated_at is
refreshed when some field is applied; the catalog upload path instead
overwrites any field present in the incoming row, also refreshing updated_at. -/
theorem C4_enrichment_semantics :
    (∀ (part : CatalogPart) (name : Option String) (weight : Option ℚ) (now : ℕ),
      (truthyS part.name_ru = true →
        (upload_file_enrich part name weight now).name_ru = part.name_ru)
      ∧ (truthyQ part.weight = true →
        (upload_file_enrich part name weight now).weight = part.weight)
      ∧ ((((!truthyS part.name_ru) && truthyS name)
            || ((!truthyQ part.weight) && truthyQ weight)) = true →
        (upload_file_enrich part name weight now).updated_at = now))
    ∧ (∀ (part : CatalogPart) (row : CatalogRow) (now : ℕ) (v : String),
      row.name_ru = some v →
      (catalog_upload_update part row now).name_ru = some v
      ∧ (catalog_upload_update part row now).updated_at = now) := by
  constructor
  · intro part name weight now
    refine ⟨?_, ?_, ?_⟩
    · intro h
      unfold upload_file_enrich
      simp only [h, Bool.not_true, Bool.false_and, Bool.false_or]
      split
      · rfl
      · rfl
    · intro h
      unfold upload_file_enrich
      simp only [h, Bool.not_true, Bool.false_and, Bool.or_false]
      split
      · rfl
      · rfl
    · intro h
      unfold upload_file_enrich
      rw [if_pos h]
  · intro part row now v hv
    have hs : row.name_ru.isSome = true := by rw [hv]; rfl
    unfold catalog_upload_update
    rw [if_pos (by rw [hs]; simp)]
    constructor
    · show fieldOr row.name_ru part.name_ru = some v
      rw [hv]
      rfl
    · rfl

/-- Witness for C4 as amended: populated name survives price-list enrichment;
catalog upload replaces it. -/
theorem C4_enrichment_semantics_witness :
    (upload_file_enrich ⟨some "Имя", none, none, none, none, none, 0⟩
        (some "X") (some 3) 7).name_ru = some "Имя"
    ∧ (catalog_upload_update ⟨some "Имя", none, none, none, none, none, 0⟩
        ⟨none, some "Y", none, none, none, none⟩ 7).name_ru = some "Y" :=
  ⟨(C4_enrichment_semantics.1 ⟨some "Имя", none, none, none, none, none, 0⟩
      (some "X") (some 3) 7).1 (by decide),
   (C4_enrichment_semantics.2 ⟨some "Имя", none, none, none, none, none, 0⟩
      ⟨none, some "Y", none, none, none, none⟩ 7 "Y" rfl).1⟩
